import Mathlib

/-!
Shallow embedding of `wareki-conv` (`src/conv.rs`): a converter from Japanese
era-based (Wareki, JIS X 0301) date strings to Gregorian calendar dates.

Strings are embedded as lists of Unicode code points (`List Nat`); this matches
the Rust code, which iterates over `char`s (Unicode scalar values).  Rust
panics (`assert!`, `assert_eq!`, `.unwrap()`) are modelled as an explicit
`panic` outcome, distinct from the `Err`/`Ok` values a caller receives.
-/

namespace Wareki

/-- Strings as lists of Unicode code points, matching Rust `str::chars`. -/
abbrev Str := List Nat

/-- Code points of a Lean string literal, used to state theorems readably. -/
def codes (s : String) : Str := s.data.map Char.toNat

/-- Code point of the dot separator. -/
def dotC : Nat := Char.toNat '.'

/-- Code point of the first-year token (gan). -/
def ganC : Nat := Char.toNat '元'

/-- Code point of the digit 1, the replacement of the first-year token. -/
def oneC : Nat := Char.toNat '1'

/-- Code point of the plus sign, accepted by Rust `u32::from_str`. -/
def plusC : Nat := Char.toNat '+'

/-- Code point of the year unit character. -/
def yearU : Nat := Char.toNat '年'

/-- Code point of the month unit character. -/
def monthU : Nat := Char.toNat '月'

/-- Code point of the day unit character. -/
def dayU : Nat := Char.toNat '日'

/-- Character-level model of `kana::wide2ascii` (conv.rs:141-143): the
full-width ASCII-variant block U+FF01..U+FF5E is shifted down to ASCII;
every other code point is unchanged. -/
def hwChar (n : Nat) : Nat :=
  if 0xFF01 ≤ n ∧ n ≤ 0xFF5E then n - 0xFEE0 else n

/-- Model of `to_half_width` (conv.rs:141-143): `kana::wide2ascii` applied to
the whole string, character by character. -/
def to_half_width (s : Str) : Str := s.map hwChar

/-- Model of Rust `str::split(sep)` collected into a vector (conv.rs:159):
the empty string splits into one empty segment, and each separator occurrence
starts a new segment. -/
def splitOn (sep : Nat) : Str → List Str
  | [] => [[]]
  | c :: rest =>
    match splitOn sep rest with
    | [] => [[c]]
    | g :: gs => if c = sep then [] :: g :: gs else (c :: g) :: gs

/-- Decides whether a code point is an ASCII digit, modelling
`char::is_ascii_digit` (conv.rs:269) and the digit set accepted by Rust
`u32` parsing (conv.rs:274,282,293). -/
def isAsciiDigit (n : Nat) : Bool := decide (48 ≤ n ∧ n ≤ 57)

/-- Inclusive code-point ranges of the Unicode general category Nd (decimal
digits), Unicode 14.0.0, ASCII first.  This is the denotation of the regex
class `\d`, which the regex crate compiles Unicode-aware by default — it
matches e.g. the Arabic-Indic digit U+0663 and the full-width digits
U+FF10..U+FF19, not only ASCII. -/
def ndRanges : List (Nat × Nat) :=
  [(48, 57), (1632, 1641), (1776, 1785), (1984, 1993), (2406, 2415),
   (2534, 2543), (2662, 2671), (2790, 2799), (2918, 2927), (3046, 3055),
   (3174, 3183), (3302, 3311), (3430, 3439), (3558, 3567), (3664, 3673),
   (3792, 3801), (3872, 3881), (4160, 4169), (4240, 4249), (6112, 6121),
   (6160, 6169), (6470, 6479), (6608, 6617), (6784, 6793), (6800, 6809),
   (6992, 7001), (7088, 7097), (7232, 7241), (7248, 7257), (42528, 42537),
   (43216, 43225), (43264, 43273), (43472, 43481), (43504, 43513),
   (43600, 43609), (44016, 44025), (65296, 65305), (66720, 66729),
   (68912, 68921), (69734, 69743), (69872, 69881), (69942, 69951),
   (70096, 70105), (70384, 70393), (70736, 70745), (70864, 70873),
   (71248, 71257), (71360, 71369), (71472, 71481), (71904, 71913),
   (72016, 72025), (72784, 72793), (73040, 73049), (73120, 73129),
   (92768, 92777), (92864, 92873), (93008, 93017), (120782, 120831),
   (123200, 123209), (123632, 123641), (125264, 125273), (130032, 130041)]

/-- Decides whether a code point is a Unicode decimal digit (category Nd),
modelling the regex class `\d` used by the patterns of conv.rs:160,163. -/
def isNdDigit (n : Nat) : Bool :=
  ndRanges.any (fun p => decide (p.1 ≤ n ∧ n ≤ p.2))

/-- Tests the first character of a string against a predicate, modelling an
anchored single-character regex match such as the ones of conv.rs:160-162. -/
def beginsWith (p : Nat → Bool) : Str → Bool
  | [] => false
  | c :: _ => p c

/-- Code points of the Latin era markers `M`, `T`, `S`, `H`, `R`
(regex at conv.rs:161). -/
def markerChars : List Nat :=
  [Char.toNat 'M', Char.toNat 'T', Char.toNat 'S', Char.toNat 'H', Char.toNat 'R']

/-- Code points of the Kanji era initials (regex at conv.rs:162). -/
def kanjiChars : List Nat :=
  [Char.toNat '明', Char.toNat '大', Char.toNat '昭', Char.toNat '平', Char.toNat '令']

/-- Code-point pairs of the five two-character era names
(regex at conv.rs:163). -/
def gengoNamePairs : List (Nat × Nat) :=
  [(Char.toNat '明', Char.toNat '治'), (Char.toNat '大', Char.toNat '正'),
   (Char.toNat '昭', Char.toNat '和'), (Char.toNat '平', Char.toNat '成'),
   (Char.toNat '令', Char.toNat '和')]

/-- Matches `\d+` (Unicode decimal digits) followed by the given unit
character and returns the rest of the string; part of the narrative regex
`^(明治|...)\d+年\d+月\d+日` of conv.rs:163.  Since no unit character is a
digit, the greedy `\d+` match is equivalent to taking the maximal digit
run. -/
def matchNum (unit : Nat) (s : Str) : Option Str :=
  let ds := s.takeWhile isNdDigit
  let r := s.dropWhile isNdDigit
  if ds = [] then none
  else
    match r with
    | u :: t => if u = unit then some t else none
    | [] => none

/-- Model of `re_separated_with_kanji.is_match` (conv.rs:163,167): the string
must start with a two-character era name followed by digits and the three unit
characters; trailing characters are allowed because the regex is only anchored
at the start. -/
def matchNarrative : Str → Bool
  | a :: b :: rest =>
    gengoNamePairs.contains (a, b) &&
    (match matchNum yearU rest with
     | none => false
     | some r1 =>
       match matchNum monthU r1 with
       | none => false
       | some r2 => (matchNum dayU r2).isSome)
  | _ => false

/-- The four constant regex patterns compiled by `find_type` and,
transitively, by `convert` (conv.rs:160-163). -/
inductive RePattern
  | beginDigit
  | beginChar
  | beginKanji
  | sepKanji
deriving DecidableEq

/-- Model of `regex::Error`.  It is never produced in this development
because the four patterns of conv.rs are fixed, syntactically valid
constants. -/
inductive RegexError
  | invalid
deriving DecidableEq

/-- The matching function denoted by each of the four constant patterns. -/
def reMatcher : RePattern → (Str → Bool)
  | RePattern.beginDigit => beginsWith isNdDigit
  | RePattern.beginChar => beginsWith (fun c => markerChars.contains c)
  | RePattern.beginKanji => beginsWith (fun c => kanjiChars.contains c)
  | RePattern.sepKanji => matchNarrative

/-- Model of `regex::Regex::new` applied to the four constant patterns of
conv.rs:160-163.  Each of these fixed patterns is valid regex syntax, so
compilation succeeds and yields the corresponding matcher; the error variant
of the return type exists but is never taken. -/
def regexNew (p : RePattern) : Except RegexError (Str → Bool) :=
  Except.ok (reMatcher p)

/-- The `DateType` enum of conv.rs:113-119. -/
inductive DateType
  | JisX0301Basic
  | JisX0301Extended
  | JisX0301ExtendedWithKanji
  | SeparatedWithKanji
deriving DecidableEq

/-- Outcome of a Rust function returning `Result<α, regex::Error>` that may
additionally panic: `ok` models `Ok`, `err` models `Err(regex::Error)`, and
`panic` models process termination by `assert!`/`assert_eq!`/`unwrap`. -/
inductive Outcome (α : Type)
  | ok (a : α)
  | err
  | panic
deriving DecidableEq

/-- Model of `find_type` (conv.rs:157-180).  The input is width-normalized
and split on `.`; one segment requires the narrative pattern (`assert!`,
modelled as `panic` on failure); three segments are classified by the first
segment's leading character; any other count fails `assert_eq!(elm.len(), 3)`
and panics. -/
def find_type (wareki : Str) : Outcome (Option DateType) :=
  let wareki_half := to_half_width wareki
  let elm := splitOn dotC wareki_half
  match regexNew RePattern.beginDigit, regexNew RePattern.beginChar,
        regexNew RePattern.beginKanji, regexNew RePattern.sepKanji with
  | Except.ok reD, Except.ok reC, Except.ok reK, Except.ok reS =>
    if elm.length = 1 then
      if reS elm.headI then Outcome.ok (some DateType.SeparatedWithKanji)
      else Outcome.panic
    else if elm.length = 3 then
      Outcome.ok
        (if reD elm.headI then some DateType.JisX0301Basic
         else if reC elm.headI then some DateType.JisX0301Extended
         else if reK elm.headI then some DateType.JisX0301ExtendedWithKanji
         else none)
    else Outcome.panic
  | _, _, _, _ => Outcome.err

/-- The `Gengo` enum of conv.rs:45-56. -/
inductive Gengo
  | Meiji
  | Taisho
  | Showa
  | Heisei
  | Reiwa
deriving DecidableEq

/-- The `first_year` of each `Gengo` (conv.rs:7-11, 66-74). -/
def Gengo.first_year : Gengo → Int
  | Gengo.Meiji => 1868
  | Gengo.Taisho => 1912
  | Gengo.Showa => 1926
  | Gengo.Heisei => 1989
  | Gengo.Reiwa => 2019

/-- Model of `gengo_resolve` (conv.rs:191-212): the first character of the
width-normalized string selects the era; anything else, including the absence
of a first character, resolves to Reiwa. -/
def gengo_resolve (wareki : Str) : Option Gengo :=
  let meiji : List Nat := [Char.toNat 'M', Char.toNat '明']
  let taisho : List Nat := [Char.toNat 'T', Char.toNat '大']
  let showa : List Nat := [Char.toNat 'S', Char.toNat '昭']
  let heisei : List Nat := [Char.toNat 'H', Char.toNat '平']
  let wareki_half := to_half_width wareki
  match wareki_half with
  | [] => some Gengo.Reiwa
  | x :: _ =>
    if meiji.contains x then some Gengo.Meiji
    else if taisho.contains x then some Gengo.Taisho
    else if showa.contains x then some Gengo.Showa
    else if heisei.contains x then some Gengo.Heisei
    else some Gengo.Reiwa

/-- Strips the optional leading `+` sign accepted by Rust `u32::from_str`. -/
def stripPlus : Str → Str
  | [] => []
  | c :: rest => if c = plusC then rest else c :: rest

/-- Parses a nonempty run of ASCII digits whose value fits in `u32`. -/
def parseDigitsU32 (t : Str) : Option Nat :=
  if t = [] then none
  else if t.all isAsciiDigit then
    let v := t.foldl (fun a c => a * 10 + (c - 48)) 0
    if v < 4294967296 then some v else none
  else none

/-- Model of Rust `str::parse::<u32>` (conv.rs:274,282,293): an optional
leading `+`, then a nonempty run of ASCII digits whose value fits in `u32`;
anything else is a parse error (`none`). -/
def parseU32 (s : Str) : Option Nat :=
  parseDigitsU32 (stripPlus s)

/-- Model of Rust `u32 as i32` (conv.rs:303 etc.): two's-complement
reinterpretation. -/
def i32ofU32 (n : Nat) : Int :=
  if n < 2147483648 then (n : Int) else (n : Int) - 4294967296

/-- Two's-complement wrap-around of `i32` arithmetic (release-mode
semantics of the additions at conv.rs:301-318). -/
def wrapI32 (z : Int) : Int := (z + 2147483648) % 4294967296 - 2147483648

/-- Proleptic-Gregorian leap-year test, as used by chrono. -/
def isLeapYear (y : Int) : Bool :=
  decide (y % 4 = 0 ∧ (y % 100 ≠ 0 ∨ y % 400 = 0))

/-- Days in a month of the proleptic Gregorian calendar; `0` for an invalid
month number. -/
def daysInMonth (y : Int) (m : Nat) : Nat :=
  match m with
  | 1 => 31
  | 2 => if isLeapYear y then 29 else 28
  | 3 => 31
  | 4 => 30
  | 5 => 31
  | 6 => 30
  | 7 => 31
  | 8 => 31
  | 9 => 30
  | 10 => 31
  | 11 => 30
  | 12 => 31
  | _ => 0

/-- Model of whether `chrono::Utc.with_ymd_and_hms(y, m, d, 0, 0, 0)` yields
a single valid timestamp (conv.rs:326-328): the month and day must be in
range for the proleptic Gregorian calendar and the year within chrono's
`NaiveDate` year range `[-262144, 262143]`. -/
def dateValid (y : Int) (m d : Nat) : Bool :=
  decide (1 ≤ m ∧ m ≤ 12 ∧ 1 ≤ d) && decide (d ≤ daysInMonth y m) &&
    decide (-262144 ≤ y ∧ y ≤ 262143)

/-- Model of `String::replace(from, to)` for the single-character pattern
`"元"` and replacement `"1"` of conv.rs:255. -/
def replaceAll (a b : Nat) (s : Str) : Str :=
  s.map (fun c => if c = a then b else c)

/-- The `Date` struct of conv.rs:14-22 (year `i32`, month and day `u32`),
which carries the data of the midnight-UTC timestamp built at
conv.rs:326-328. -/
structure Date where
  year : Int
  month : Nat
  day : Nat
deriving DecidableEq

/-- Outcome of `convert` (conv.rs:252): `ok d` models
`Ok(Some(timestamp of d))`, `unrecognized` models `Ok(None)`, `err` models
`Err(regex::Error)`, and `panic` models process termination by a failed
`assert_eq!` or `unwrap`. -/
inductive CResult
  | ok (d : Date)
  | unrecognized
  | err
  | panic
deriving DecidableEq

/-- The per-`DateType` field-extraction step of `convert` (conv.rs:263-296):
the dot-split segment strings that are subsequently parsed as numbers. -/
def extractSegs (t : Str) (dt : DateType) : List Str :=
  match dt with
  | DateType.SeparatedWithKanji =>
    splitOn dotC
      (((t.drop 2).filter (fun c => c != dayU)).map
        (fun c => if isAsciiDigit c then c else dotC))
  | DateType.JisX0301Basic => splitOn dotC t
  | DateType.JisX0301Extended => splitOn dotC (t.drop 1)
  | DateType.JisX0301ExtendedWithKanji => splitOn dotC (t.drop 1)

/-- Body of `convert` after the width normalization and first-year-token
replacement of conv.rs:253-255; `t` is the `wareki_half` variable.  Field
extraction follows conv.rs:263-298 (`parse().unwrap()` panics on a
non-numeric segment, `assert_eq!(ymd_elements.len(), 3)` panics on any other
field count), the year computation conv.rs:300-318 (all five arms compute
`ymd[0] as i32 + first_year - 1` for the resolved `Gengo`), and the final
`unwrap` of conv.rs:326-328 panics on an invalid calendar date. -/
def convertAfterNorm (t : Str) : CResult :=
  match find_type t with
  | Outcome.err => CResult.err
  | Outcome.panic => CResult.panic
  | Outcome.ok dtOpt =>
    match dtOpt with
    | none => CResult.unrecognized
    | some dt =>
      match (extractSegs t dt).mapM parseU32 with
      | none => CResult.panic
      | some l =>
        match l with
        | [y0, m0, d0] =>
          match gengo_resolve t with
          | none => CResult.unrecognized
          | some g =>
            let year := wrapI32 (wrapI32 (i32ofU32 y0 + Gengo.first_year g) - 1)
            if dateValid year m0 d0 then CResult.ok ⟨year, m0, d0⟩
            else CResult.panic
        | _ => CResult.panic

/-- The `wareki_half` preprocessing of `convert` (conv.rs:253-255): width
normalization followed by the global replacement of the first-year token
by the digit 1. -/
def preNorm (s : Str) : Str := replaceAll ganC oneC (to_half_width s)

/-- Model of `convert` (conv.rs:252-331): width-normalize, replace every
occurrence of the first-year token by `1`, then classify, resolve the era,
extract the fields and compute the Gregorian date. -/
def convert (wareki : Str) : CResult :=
  convertAfterNorm (preNorm wareki)

/-- Little-endian decimal digit characters of `n`, with fuel (the number
itself) to keep the recursion structural. -/
def natDigitsAux : Nat → Nat → Str
  | 0, _ => []
  | _, 0 => []
  | fuel + 1, n + 1 => ((n + 1) % 10 + 48) :: natDigitsAux fuel ((n + 1) / 10)

/-- Decimal digit characters of `n`, most significant first (empty for 0). -/
def natDigits (n : Nat) : Str := (natDigitsAux n n).reverse

/-- Latin marker character of each era. -/
def markerOf : Gengo → Nat
  | Gengo.Meiji => Char.toNat 'M'
  | Gengo.Taisho => Char.toNat 'T'
  | Gengo.Showa => Char.toNat 'S'
  | Gengo.Heisei => Char.toNat 'H'
  | Gengo.Reiwa => Char.toNat 'R'

/-- Kanji initial character of each era. -/
def kanjiOf : Gengo → Nat
  | Gengo.Meiji => Char.toNat '明'
  | Gengo.Taisho => Char.toNat '大'
  | Gengo.Showa => Char.toNat '昭'
  | Gengo.Heisei => Char.toNat '平'
  | Gengo.Reiwa => Char.toNat '令'

/-- Two-character name of each era. -/
def namePairOf : Gengo → Nat × Nat
  | Gengo.Meiji => (Char.toNat '明', Char.toNat '治')
  | Gengo.Taisho => (Char.toNat '大', Char.toNat '正')
  | Gengo.Showa => (Char.toNat '昭', Char.toNat '和')
  | Gengo.Heisei => (Char.toNat '平', Char.toNat '成')
  | Gengo.Reiwa => (Char.toNat '令', Char.toNat '和')

/-- Dotted year-month-day body with a given textual year field. -/
def dottedStr (ys : Str) (m d : Nat) : Str :=
  ys ++ dotC :: (natDigits m ++ dotC :: natDigits d)

/-- Encodes `(g, ys, m, d)` in one of the four accepted notations, with the
year given as an explicit character string `ys`. -/
def encodeStrYMD (g : Gengo) (k : DateType) (ys : Str) (m d : Nat) : Str :=
  match k with
  | DateType.JisX0301Basic => dottedStr ys m d
  | DateType.JisX0301Extended => markerOf g :: dottedStr ys m d
  | DateType.JisX0301ExtendedWithKanji => kanjiOf g :: dottedStr ys m d
  | DateType.SeparatedWithKanji =>
    (namePairOf g).1 :: (namePairOf g).2 ::
      (ys ++ yearU :: (natDigits m ++ monthU :: (natDigits d ++ [dayU])))

/-- Encodes `(g, y, m, d)` in one of the four accepted notations with the
year written as a decimal numeral. -/
def encodeYMD (g : Gengo) (k : DateType) (y m d : Nat) : Str :=
  encodeStrYMD g k (natDigits y) m d

/-- Encodes `(g, 1, m, d)` with the year written as the first-year token. -/
def encodeGan (g : Gengo) (k : DateType) (m d : Nat) : Str :=
  encodeStrYMD g k [ganC] m d

/-- Joins segments back with the separator; inverse of `splitOn`. -/
def joinSep (sep : Nat) : List Str → Str
  | [] => []
  | [a] => a
  | a :: rest => a ++ sep :: joinSep sep rest

/-- The first-character era table of `gengo_resolve` (conv.rs:202-209). -/
def gengoOfChar (x : Nat) : Gengo :=
  if ([Char.toNat 'M', Char.toNat '明'] : List Nat).contains x then Gengo.Meiji
  else if ([Char.toNat 'T', Char.toNat '大'] : List Nat).contains x then Gengo.Taisho
  else if ([Char.toNat 'S', Char.toNat '昭'] : List Nat).contains x then Gengo.Showa
  else if ([Char.toNat 'H', Char.toNat '平'] : List Nat).contains x then Gengo.Heisei
  else Gengo.Reiwa

/-- Shape predicate of each notation over a normalized string, following the
classifier guards of conv.rs:165-177: one dot-segment matching the narrative
pattern, or three dot-segments whose first segment starts with a character of
the respective class (a Unicode decimal digit for the markerless numeric
notation, since the regex class `\d` is Unicode-aware). -/
def matchesKind (s : Str) : DateType → Bool
  | DateType.SeparatedWithKanji =>
    decide ((splitOn dotC s).length = 1) && matchNarrative (splitOn dotC s).headI
  | DateType.JisX0301Basic =>
    decide ((splitOn dotC s).length = 3) &&
      beginsWith isNdDigit (splitOn dotC s).headI
  | DateType.JisX0301Extended =>
    decide ((splitOn dotC s).length = 3) &&
      beginsWith (fun c => markerChars.contains c) (splitOn dotC s).headI
  | DateType.JisX0301ExtendedWithKanji =>
    decide ((splitOn dotC s).length = 3) &&
      beginsWith (fun c => kanjiChars.contains c) (splitOn dotC s).headI

/-! ### Character-level facts about width normalization -/

lemma hwChar_fix_of_lt {n : Nat} (h : n < 0xFF01) : hwChar n = n := by
  unfold hwChar
  rw [if_neg (by omega)]

lemma hwChar_idem (n : Nat) : hwChar (hwChar n) = hwChar n := by
  by_cases h : 0xFF01 ≤ n ∧ n ≤ 0xFF5E
  · have h1 : hwChar n = n - 0xFEE0 := by unfold hwChar; rw [if_pos h]
    rw [h1, hwChar_fix_of_lt (by omega)]
  · have h1 : hwChar n = n := by unfold hwChar; rw [if_neg h]
    rw [h1, h1]

lemma to_half_width_fix {s : Str} (h : ∀ c ∈ s, hwChar c = c) :
    to_half_width s = s := by
  unfold to_half_width
  conv_rhs => rw [← List.map_id s]
  exact List.map_congr_left h

lemma to_half_width_cons (c : Nat) (s : Str) :
    to_half_width (c :: s) = hwChar c :: to_half_width s := rfl

lemma mem_to_half_width_fix {s : Str} {c : Nat} (h : c ∈ to_half_width s) :
    hwChar c = c := by
  rcases List.mem_map.mp h with ⟨a, _, rfl⟩
  exact hwChar_idem a

lemma to_half_width_idem (s : Str) :
    to_half_width (to_half_width s) = to_half_width s :=
  to_half_width_fix (fun _ hc => mem_to_half_width_fix hc)

/-! ### Facts about the first-year-token replacement -/

lemma replaceAll_fix {a b : Nat} {s : Str} (h : a ∉ s) :
    replaceAll a b s = s := by
  unfold replaceAll
  conv_rhs => rw [← List.map_id s]
  refine List.map_congr_left (fun c hc => ?_)
  have hca : c ≠ a := fun hca => h (hca ▸ hc)
  show (if c = a then b else c) = id c
  rw [if_neg hca]
  rfl

lemma not_mem_replaceAll {a b : Nat} (hab : a ≠ b) (s : Str) :
    a ∉ replaceAll a b s := by
  intro h
  rcases List.mem_map.mp h with ⟨c, _, hc⟩
  by_cases hca : c = a
  · rw [if_pos hca] at hc; exact hab hc.symm
  · rw [if_neg hca] at hc; exact hca hc

lemma mem_preNorm_fix {s : Str} {c : Nat} (h : c ∈ preNorm s) : hwChar c = c := by
  rcases List.mem_map.mp h with ⟨a, ha, hc⟩
  by_cases hca : a = ganC
  · rw [if_pos hca] at hc
    rw [← hc]
    decide
  · rw [if_neg hca] at hc
    exact hc ▸ mem_to_half_width_fix ha

lemma to_half_width_preNorm (s : Str) : to_half_width (preNorm s) = preNorm s :=
  to_half_width_fix (fun _ hc => mem_preNorm_fix hc)

lemma preNorm_fix {s : Str} (hw : ∀ c ∈ s, hwChar c = c) (hg : ganC ∉ s) :
    preNorm s = s := by
  unfold preNorm
  rw [to_half_width_fix hw, replaceAll_fix hg]

/-! ### Decimal numerals and their parse -/

lemma natDigitsAux_digits :
    ∀ fuel n c, c ∈ natDigitsAux fuel n → 48 ≤ c ∧ c ≤ 57 := by
  intro fuel
  induction fuel with
  | zero => intro n c hc; simp [natDigitsAux] at hc
  | succ f ih =>
    intro n c hc
    match n with
    | 0 => simp [natDigitsAux] at hc
    | n + 1 =>
      rw [natDigitsAux] at hc
      rcases List.mem_cons.mp hc with h | h
      · subst h
        have : (n + 1) % 10 < 10 := Nat.mod_lt _ (by omega)
        omega
      · exact ih _ _ h

lemma natDigits_digits {n c : Nat} (hc : c ∈ natDigits n) : 48 ≤ c ∧ c ≤ 57 :=
  natDigitsAux_digits n n c (List.mem_reverse.mp hc)

lemma natDigits_ne_nil {n : Nat} (h : 1 ≤ n) : natDigits n ≠ [] := by
  match n, h with
  | n + 1, _ =>
    unfold natDigits natDigitsAux
    simp

lemma natDigitsAux_foldl :
    ∀ fuel n, n ≤ fuel → ∀ a : Nat,
      List.foldl (fun a c => a * 10 + (c - 48)) a (natDigitsAux fuel n).reverse =
        a * 10 ^ (natDigitsAux fuel n).length + n := by
  intro fuel
  induction fuel with
  | zero =>
    intro n hn a
    have : n = 0 := by omega
    subst this
    simp [natDigitsAux]
  | succ f ih =>
    intro n hn a
    match n with
    | 0 => simp [natDigitsAux]
    | n + 1 =>
      rw [natDigitsAux]
      have hdiv : (n + 1) / 10 ≤ f := by
        have := Nat.div_le_self (n + 1) 10
        have h10 : (n + 1) / 10 < n + 1 := Nat.div_lt_self (by omega) (by omega)
        omega
      simp only [List.reverse_cons, List.foldl_append, List.foldl_cons,
        List.foldl_nil, List.length_cons]
      rw [ih _ hdiv a]
      have hmod : (n + 1) % 10 + 48 - 48 = (n + 1) % 10 := by omega
      rw [hmod]
      have := Nat.div_add_mod (n + 1) 10
      ring_nf
      omega

lemma parseU32_natDigits {n : Nat} (h1 : 1 ≤ n) (h2 : n < 4294967296) :
    parseU32 (natDigits n) = some n := by
  have hne : natDigits n ≠ [] := natDigits_ne_nil h1
  have hall : (natDigits n).all isAsciiDigit = true := by
    rw [List.all_eq_true]
    intro c hc
    have := natDigits_digits hc
    unfold isAsciiDigit
    exact decide_eq_true this
  obtain ⟨c, cs, hcons⟩ : ∃ c cs, natDigits n = c :: cs := by
    match hd : natDigits n with
    | [] => exact absurd hd hne
    | c :: cs => exact ⟨c, cs, rfl⟩
  have hcdig : 48 ≤ c ∧ c ≤ 57 := natDigits_digits (hcons ▸ List.mem_cons_self c cs)
  have hfold :
      List.foldl (fun a c => a * 10 + (c - 48)) 0 (natDigits n) =
        0 * 10 ^ (natDigitsAux n n).length + n := by
    unfold natDigits
    exact natDigitsAux_foldl n n (Nat.le_refl n) 0
  have hplusval : plusC = 43 := by decide
  have hstrip : stripPlus (natDigits n) = natDigits n := by
    rw [hcons, stripPlus, if_neg (by omega), ← hcons]
  unfold parseU32
  rw [hstrip]
  unfold parseDigitsU32
  rw [if_neg hne, if_pos hall]
  simp only
  rw [hfold]
  simp only [Nat.zero_mul, Nat.zero_add]
  rw [if_pos h2]

/-! ### Splitting on the dot separator -/

lemma splitOn_ne_nil (sep : Nat) (s : Str) : splitOn sep s ≠ [] := by
  match s with
  | [] => simp [splitOn]
  | c :: rest =>
    rw [splitOn]
    match h : splitOn sep rest with
    | [] => simp
    | g :: gs =>
      by_cases hc : c = sep <;> simp [hc]

lemma splitOn_no_sep {sep : Nat} {s : Str} (h : sep ∉ s) : splitOn sep s = [s] := by
  induction s with
  | nil => rfl
  | cons c cs ih =>
    have hcs : sep ∉ cs := fun hm => h (List.mem_cons_of_mem c hm)
    have hc : c ≠ sep := fun hc => h (hc ▸ List.mem_cons_self c cs)
    rw [splitOn, ih hcs]
    simp [hc]

lemma splitOn_append {sep : Nat} {a : Str} (h : sep ∉ a) (t : Str) :
    splitOn sep (a ++ sep :: t) = a :: splitOn sep t := by
  induction a with
  | nil =>
    simp only [List.nil_append]
    rw [splitOn]
    match hs : splitOn sep t with
    | [] => exact absurd hs (splitOn_ne_nil sep t)
    | g :: gs => simp
  | cons c cs ih =>
    have hcs : sep ∉ cs := fun hm => h (List.mem_cons_of_mem c hm)
    have hc : c ≠ sep := fun hc => h (hc ▸ List.mem_cons_self c cs)
    simp only [List.cons_append]
    rw [splitOn, ih hcs]
    simp [hc]

lemma splitOn_three {sep : Nat} {a b c : Str}
    (ha : sep ∉ a) (hb : sep ∉ b) (hc : sep ∉ c) :
    splitOn sep (a ++ sep :: (b ++ sep :: c)) = [a, b, c] := by
  rw [splitOn_append ha, splitOn_append hb, splitOn_no_sep hc]

lemma joinSep_splitOn (sep : Nat) (s : Str) : joinSep sep (splitOn sep s) = s := by
  induction s with
  | nil => rfl
  | cons c cs ih =>
    rw [splitOn]
    match hs : splitOn sep cs with
    | [] => exact absurd hs (splitOn_ne_nil sep cs)
    | g :: gs =>
      rw [hs] at ih
      by_cases hc : c = sep
      · simp only [if_pos hc]
        subst hc
        match gs with
        | [] => simp [joinSep] at ih ⊢; exact ih
        | g' :: gs' => simp [joinSep] at ih ⊢; exact ih
      · simp only [if_neg hc]
        match gs with
        | [] => simp [joinSep] at ih ⊢; exact ih
        | g' :: gs' => simp [joinSep] at ih ⊢; exact ih

lemma splitOn_cons' {sep c : Nat} {cs : Str} {g : Str} {gs : List Str}
    (hs : splitOn sep cs = g :: gs) :
    splitOn sep (c :: cs) = if c = sep then [] :: g :: gs else (c :: g) :: gs := by
  rw [splitOn, hs]

lemma splitOn_segments_no_sep {sep : Nat} {s : Str} :
    ∀ g ∈ splitOn sep s, sep ∉ g := by
  induction s with
  | nil =>
    intro g hg
    simp [splitOn] at hg
    subst hg
    simp
  | cons c cs ih =>
    intro g hg
    cases hs : splitOn sep cs with
    | nil => exact absurd hs (splitOn_ne_nil sep cs)
    | cons g' gs' =>
      rw [splitOn_cons' hs] at hg
      by_cases hc : c = sep
      · rw [if_pos hc] at hg
        rcases List.mem_cons.mp hg with h | h
        · subst h; simp
        · exact ih g (by rw [hs]; exact h)
      · rw [if_neg hc] at hg
        rcases List.mem_cons.mp hg with h | h
        · subst h
          intro hmem
          rcases List.mem_cons.mp hmem with h' | h'
          · exact hc h'.symm
          · exact ih g' (by rw [hs]; exact List.mem_cons_self g' gs') h'
        · exact ih g (by rw [hs]; exact List.mem_cons_of_mem g' h)

/-! ### The narrative matcher on encoded input -/

lemma takeWhile_all_append {p : Nat → Bool} {a : Str} (ha : ∀ c ∈ a, p c = true)
    {x : Nat} (hx : p x = false) (r : Str) :
    (a ++ x :: r).takeWhile p = a := by
  induction a with
  | nil => simp [List.takeWhile, hx]
  | cons c cs ih =>
    have hc : p c = true := ha c (List.mem_cons_self c cs)
    have hcs : ∀ c ∈ cs, p c = true := fun c hm => ha c (List.mem_cons_of_mem _ hm)
    simp [List.takeWhile_cons, hc, ih hcs]

lemma dropWhile_all_append {p : Nat → Bool} {a : Str} (ha : ∀ c ∈ a, p c = true)
    {x : Nat} (hx : p x = false) (r : Str) :
    (a ++ x :: r).dropWhile p = x :: r := by
  induction a with
  | nil => simp [List.dropWhile, hx]
  | cons c cs ih =>
    have hc : p c = true := ha c (List.mem_cons_self c cs)
    have hcs : ∀ c ∈ cs, p c = true := fun c hm => ha c (List.mem_cons_of_mem _ hm)
    simp [List.dropWhile_cons, hc, ih hcs]

lemma matchNum_encode {u : Nat} {ds : Str} (hds : ∀ c ∈ ds, isNdDigit c = true)
    (hne : ds ≠ []) (hu : isNdDigit u = false) (rest : Str) :
    matchNum u (ds ++ u :: rest) = some rest := by
  unfold matchNum
  rw [takeWhile_all_append hds hu, dropWhile_all_append hds hu]
  simp [hne]

lemma natDigits_all_digits (n : Nat) : ∀ c ∈ natDigits n, isAsciiDigit c = true := by
  intro c hc
  unfold isAsciiDigit
  exact decide_eq_true (natDigits_digits hc)

lemma isNd_of_ascii {c : Nat} (h : 48 ≤ c ∧ c ≤ 57) : isNdDigit c = true := by
  unfold isNdDigit
  rw [List.any_eq_true]
  exact ⟨(48, 57), by decide, decide_eq_true h⟩

lemma natDigits_all_nd (n : Nat) : ∀ c ∈ natDigits n, isNdDigit c = true :=
  fun _ hc => isNd_of_ascii (natDigits_digits hc)

/-! ### Character classes of the era constants -/

lemma digit_not_dot {c : Nat} (h : 48 ≤ c ∧ c ≤ 57) : c ≠ dotC := by
  have : dotC = 46 := by decide
  omega

lemma digit_not_gan {c : Nat} (h : 48 ≤ c ∧ c ≤ 57) : c ≠ ganC := by
  have : ganC = 20803 := by decide
  omega

lemma digit_not_dayU {c : Nat} (h : 48 ≤ c ∧ c ≤ 57) : c ≠ dayU := by
  have : dayU = 26085 := by decide
  omega

lemma digit_hw_fix {c : Nat} (h : 48 ≤ c ∧ c ≤ 57) : hwChar c = c :=
  hwChar_fix_of_lt (by omega)

lemma contains_true_iff {α : Type} [BEq α] [LawfulBEq α] {l : List α} {c : α} :
    l.contains c = true ↔ c ∈ l := by
  constructor
  · intro h
    rcases List.contains_iff_exists_mem_beq.mp h with ⟨b, hb, hbeq⟩
    have hcb : c = b := by simpa using hbeq
    subst hcb
    exact hb
  · intro h
    exact List.contains_iff_exists_mem_beq.mpr ⟨c, h, by simp⟩

lemma contains_false_iff {α : Type} [BEq α] [LawfulBEq α] {l : List α} {c : α} :
    l.contains c = false ↔ c ∉ l := by
  rw [Bool.eq_false_iff]
  exact not_congr contains_true_iff

lemma digit_not_marker {c : Nat} (h : 48 ≤ c ∧ c ≤ 57) :
    markerChars.contains c = false := by
  rw [contains_false_iff]
  intro hm
  have hval : markerChars = [77, 84, 83, 72, 82] := by decide
  rw [hval] at hm
  simp at hm
  omega

lemma digit_not_kanji {c : Nat} (h : 48 ≤ c ∧ c ≤ 57) :
    kanjiChars.contains c = false := by
  rw [contains_false_iff]
  intro hm
  have hval : kanjiChars = [26126, 22823, 26157, 24179, 20196] := by decide
  rw [hval] at hm
  simp at hm
  omega

lemma natDigits_not_dot {n : Nat} : dotC ∉ natDigits n := by
  intro h
  exact digit_not_dot (natDigits_digits h) rfl

lemma natDigits_not_gan {n : Nat} : ganC ∉ natDigits n := by
  intro h
  exact digit_not_gan (natDigits_digits h) rfl

/-! ### Era resolution -/

lemma gengo_resolve_nil : gengo_resolve [] = some Gengo.Reiwa := rfl

lemma gengo_resolve_cons (c : Nat) (s : Str) :
    gengo_resolve (c :: s) = some (gengoOfChar (hwChar c)) := by
  simp only [gengo_resolve, gengoOfChar, to_half_width_cons]
  split_ifs <;> rfl

lemma gengo_resolve_ne_none (s : Str) : gengo_resolve s ≠ none := by
  match s with
  | [] => simp [gengo_resolve_nil]
  | c :: cs => simp [gengo_resolve_cons]

lemma gengoOfChar_digit {c : Nat} (h : 48 ≤ c ∧ c ≤ 57) :
    gengoOfChar c = Gengo.Reiwa := by
  obtain ⟨h1, h2⟩ := h
  interval_cases c <;> decide

/-! ### Evaluating the classifier -/

lemma find_type_eval (t : Str) :
    find_type t =
      (if (splitOn dotC (to_half_width t)).length = 1 then
        if matchNarrative (splitOn dotC (to_half_width t)).headI then
          Outcome.ok (some DateType.SeparatedWithKanji)
        else Outcome.panic
      else if (splitOn dotC (to_half_width t)).length = 3 then
        Outcome.ok
          (if beginsWith isNdDigit (splitOn dotC (to_half_width t)).headI then
            some DateType.JisX0301Basic
          else if beginsWith (fun c => markerChars.contains c)
              (splitOn dotC (to_half_width t)).headI then
            some DateType.JisX0301Extended
          else if beginsWith (fun c => kanjiChars.contains c)
              (splitOn dotC (to_half_width t)).headI then
            some DateType.JisX0301ExtendedWithKanji
          else none)
      else Outcome.panic) := rfl

lemma find_type_ne_err (t : Str) : find_type t ≠ Outcome.err := by
  rw [find_type_eval]
  split_ifs <;> simp

/-! ### Evaluating the conversion tail -/

lemma convertAfterNorm_ok_some (t : Str) (dt : DateType)
    (hft : find_type t = Outcome.ok (some dt)) :
    convertAfterNorm t =
      (match (extractSegs t dt).mapM parseU32 with
       | none => CResult.panic
       | some l =>
         match l with
         | [y0, m0, d0] =>
           match gengo_resolve t with
           | none => CResult.unrecognized
           | some g =>
             let year := wrapI32 (wrapI32 (i32ofU32 y0 + Gengo.first_year g) - 1)
             if dateValid year m0 d0 then CResult.ok ⟨year, m0, d0⟩
             else CResult.panic
         | _ => CResult.panic) := by
  unfold convertAfterNorm
  rw [hft]

lemma wrapI32_small {z : Int} (h1 : -2147483648 ≤ z) (h2 : z < 2147483648) :
    wrapI32 z = z := by
  unfold wrapI32
  rw [Int.emod_eq_of_lt (by omega) (by omega)]
  omega

lemma i32ofU32_small {n : Nat} (h : n < 2147483648) : i32ofU32 n = (n : Int) := by
  unfold i32ofU32
  rw [if_pos h]

lemma first_year_bounds (g : Gengo) :
    1868 ≤ Gengo.first_year g ∧ Gengo.first_year g ≤ 2019 := by
  cases g <;> exact ⟨by decide, by decide⟩

lemma daysInMonth_ge_28 (y : Int) {m : Nat} (h1 : 1 ≤ m) (h2 : m ≤ 12) :
    28 ≤ daysInMonth y m := by
  interval_cases m
  all_goals simp [daysInMonth]
  all_goals split_ifs
  all_goals omega

lemma dateValid_of_bounds {y : Int} {m d : Nat}
    (hy1 : 1800 ≤ y) (hy2 : y ≤ 2100) (hm1 : 1 ≤ m) (hm2 : m ≤ 12)
    (hd1 : 1 ≤ d) (hd2 : d ≤ 28) :
    dateValid y m d = true := by
  have hdays := daysInMonth_ge_28 y hm1 hm2
  simp only [dateValid, Bool.and_eq_true, decide_eq_true_eq]
  refine ⟨⟨⟨hm1, hm2, hd1⟩, by omega⟩, by omega, by omega⟩

lemma convertAfterNorm_eval (t : Str) (dt : DateType) (g : Gengo) (y m d : Nat)
    (hy1 : 1 ≤ y) (hy2 : y ≤ 60) (hm1 : 1 ≤ m) (hm2 : m ≤ 12)
    (hd1 : 1 ≤ d) (hd2 : d ≤ 28)
    (hft : find_type t = Outcome.ok (some dt))
    (hsegs : extractSegs t dt = [natDigits y, natDigits m, natDigits d])
    (hg : gengo_resolve t = some g) :
    convertAfterNorm t = CResult.ok ⟨(y : Int) + Gengo.first_year g - 1, m, d⟩ := by
  rw [convertAfterNorm_ok_some t dt hft, hsegs]
  have hyp : parseU32 (natDigits y) = some y := parseU32_natDigits hy1 (by omega)
  have hmp : parseU32 (natDigits m) = some m := parseU32_natDigits hm1 (by omega)
  have hdp : parseU32 (natDigits d) = some d := parseU32_natDigits hd1 (by omega)
  have hfy := first_year_bounds g
  have hyle : (y : Int) ≤ 60 := by exact_mod_cast hy2
  have hyge : (1 : Int) ≤ (y : Int) := by exact_mod_cast hy1
  have hi32 : i32ofU32 y = (y : Int) := i32ofU32_small (by omega)
  have hw1 : wrapI32 ((y : Int) + Gengo.first_year g) = (y : Int) + Gengo.first_year g :=
    wrapI32_small (by omega) (by omega)
  have hw2 : wrapI32 ((y : Int) + Gengo.first_year g - 1) =
      (y : Int) + Gengo.first_year g - 1 :=
    wrapI32_small (by omega) (by omega)
  have hvalid : dateValid ((y : Int) + Gengo.first_year g - 1) m d = true :=
    dateValid_of_bounds (by omega) (by omega) hm1 hm2 hd1 hd2
  simp only [List.mapM_cons, List.mapM_nil, hyp, hmp, hdp, Option.bind_eq_bind,
    Option.some_bind, Option.pure_def]
  rw [hg]
  simp only [hi32, hw1, hw2, hvalid, if_true]

/-! ### The classifier and extractor on encoded inputs -/

lemma natDigits_cons {n : Nat} (h : 1 ≤ n) :
    ∃ c cs, natDigits n = c :: cs ∧ 48 ≤ c ∧ c ≤ 57 := by
  match hd : natDigits n with
  | [] => exact absurd hd (natDigits_ne_nil h)
  | c :: cs =>
    refine ⟨c, cs, rfl, ?_⟩
    exact natDigits_digits (hd ▸ List.mem_cons_self c cs)

lemma beginsWith_digit_of {ys : Str} (hys : ∀ c ∈ ys, 48 ≤ c ∧ c ≤ 57)
    (hne : ys ≠ []) : beginsWith isNdDigit ys = true := by
  match ys, hne with
  | c :: cs, _ =>
    show isNdDigit c = true
    exact isNd_of_ascii (hys c (List.mem_cons_self c cs))

lemma mem_dottedStr {c : Nat} {ys : Str} {m d : Nat} (h : c ∈ dottedStr ys m d) :
    c ∈ ys ∨ c = dotC ∨ c ∈ natDigits m ∨ c ∈ natDigits d := by
  unfold dottedStr at h
  rcases List.mem_append.mp h with h | h
  · exact Or.inl h
  · rcases List.mem_cons.mp h with h | h
    · exact Or.inr (Or.inl h)
    · rcases List.mem_append.mp h with h | h
      · exact Or.inr (Or.inr (Or.inl h))
      · rcases List.mem_cons.mp h with h | h
        · exact Or.inr (Or.inl h)
        · exact Or.inr (Or.inr (Or.inr h))

lemma dottedStr_hw_fix {ys : Str} (hys : ∀ c ∈ ys, hwChar c = c) (m d : Nat) :
    to_half_width (dottedStr ys m d) = dottedStr ys m d := by
  apply to_half_width_fix
  intro c hc
  rcases mem_dottedStr hc with h | h | h | h
  · exact hys c h
  · subst h; decide
  · exact digit_hw_fix (natDigits_digits h)
  · exact digit_hw_fix (natDigits_digits h)

lemma dottedStr_no_gan {ys : Str} (hys : ganC ∉ ys) (m d : Nat) :
    ganC ∉ dottedStr ys m d := by
  intro h
  rcases mem_dottedStr h with h | h | h | h
  · exact hys h
  · exact absurd h (by decide)
  · exact natDigits_not_gan h
  · exact natDigits_not_gan h

lemma splitOn_dottedStr {ys : Str} (hys : dotC ∉ ys) (m d : Nat) :
    splitOn dotC (dottedStr ys m d) = [ys, natDigits m, natDigits d] := by
  unfold dottedStr
  exact splitOn_three hys natDigits_not_dot natDigits_not_dot

lemma find_type_dotted_digit {ys : Str} (hys : ∀ c ∈ ys, 48 ≤ c ∧ c ≤ 57)
    (hne : ys ≠ []) (m d : Nat) :
    find_type (dottedStr ys m d) = Outcome.ok (some DateType.JisX0301Basic) := by
  have hfix : to_half_width (dottedStr ys m d) = dottedStr ys m d :=
    dottedStr_hw_fix (fun c hc => digit_hw_fix (hys c hc)) m d
  have hnd : dotC ∉ ys := fun h => digit_not_dot (hys _ h) rfl
  have hsplit := splitOn_dottedStr hnd m d
  have hbw := beginsWith_digit_of hys hne
  rw [find_type_eval, hfix, hsplit]
  simp [List.headI, hbw]

lemma find_type_marked {μ : Nat} {ys : Str} (hμhw : hwChar μ = μ)
    (hμdot : μ ≠ dotC) (hμdig : isNdDigit μ = false)
    (hys : ∀ c ∈ ys, 48 ≤ c ∧ c ≤ 57) (m d : Nat) :
    find_type (μ :: dottedStr ys m d) = Outcome.ok
      (if markerChars.contains μ then some DateType.JisX0301Extended
       else if kanjiChars.contains μ then some DateType.JisX0301ExtendedWithKanji
       else none) := by
  have hfixd : to_half_width (dottedStr ys m d) = dottedStr ys m d :=
    dottedStr_hw_fix (fun c hc => digit_hw_fix (hys c hc)) m d
  have hfix : to_half_width (μ :: dottedStr ys m d) = μ :: dottedStr ys m d := by
    rw [to_half_width_cons, hμhw, hfixd]
  have hnd : dotC ∉ ys := fun h => digit_not_dot (hys _ h) rfl
  have hsplit : splitOn dotC (μ :: dottedStr ys m d) =
      (μ :: ys) :: [natDigits m, natDigits d] := by
    rw [splitOn_cons' (splitOn_dottedStr hnd m d), if_neg hμdot]
  rw [find_type_eval, hfix, hsplit]
  simp [List.headI, beginsWith, hμdig]

lemma mem_narrativeTail {c : Nat} {ys : Str} {m d : Nat}
    (h : c ∈ ys ++ yearU :: (natDigits m ++ monthU :: (natDigits d ++ [dayU]))) :
    c ∈ ys ∨ c = yearU ∨ c ∈ natDigits m ∨ c = monthU ∨ c ∈ natDigits d ∨ c = dayU := by
  rcases List.mem_append.mp h with h | h
  · exact Or.inl h
  · rcases List.mem_cons.mp h with h | h
    · exact Or.inr (Or.inl h)
    · rcases List.mem_append.mp h with h | h
      · exact Or.inr (Or.inr (Or.inl h))
      · rcases List.mem_cons.mp h with h | h
        · exact Or.inr (Or.inr (Or.inr (Or.inl h)))
        · rcases List.mem_append.mp h with h | h
          · exact Or.inr (Or.inr (Or.inr (Or.inr (Or.inl h))))
          · rcases List.mem_cons.mp h with h | h
            · exact Or.inr (Or.inr (Or.inr (Or.inr (Or.inr h))))
            · exact absurd h (List.not_mem_nil c)

lemma matchNarrative_encode {n1 n2 : Nat} {ys : Str}
    (hpair : gengoNamePairs.contains (n1, n2) = true)
    (hys : ∀ c ∈ ys, isNdDigit c = true) (hne : ys ≠ []) {m d : Nat}
    (hm : 1 ≤ m) (hd : 1 ≤ d) :
    matchNarrative
      (n1 :: n2 :: (ys ++ yearU :: (natDigits m ++ monthU :: (natDigits d ++ [dayU]))))
      = true := by
  show (gengoNamePairs.contains (n1, n2) &&
    (match matchNum yearU
        (ys ++ yearU :: (natDigits m ++ monthU :: (natDigits d ++ [dayU]))) with
     | none => false
     | some r1 =>
       match matchNum monthU r1 with
       | none => false
       | some r2 => (matchNum dayU r2).isSome)) = true
  rw [matchNum_encode hys hne (by decide)]
  dsimp only
  rw [matchNum_encode (natDigits_all_nd m) (natDigits_ne_nil hm) (by decide)]
  dsimp only
  rw [show natDigits d ++ [dayU] = natDigits d ++ dayU :: [] from rfl,
      matchNum_encode (natDigits_all_nd d) (natDigits_ne_nil hd) (by decide)]
  simp [contains_true_iff.mp hpair]

lemma narrative_hw_fix {n1 n2 : Nat} {ys : Str} (h1 : hwChar n1 = n1)
    (h2 : hwChar n2 = n2) (hys : ∀ c ∈ ys, hwChar c = c) (m d : Nat) :
    to_half_width
        (n1 :: n2 :: (ys ++ yearU :: (natDigits m ++ monthU :: (natDigits d ++ [dayU]))))
      = n1 :: n2 :: (ys ++ yearU :: (natDigits m ++ monthU :: (natDigits d ++ [dayU]))) := by
  apply to_half_width_fix
  intro c hc
  rcases List.mem_cons.mp hc with h | hc
  · subst h; exact h1
  rcases List.mem_cons.mp hc with h | hc
  · subst h; exact h2
  rcases mem_narrativeTail hc with h | h | h | h | h | h
  · exact hys c h
  · subst h; decide
  · exact digit_hw_fix (natDigits_digits h)
  · subst h; decide
  · exact digit_hw_fix (natDigits_digits h)
  · subst h; decide

lemma narrative_no_dot {n1 n2 : Nat} {ys : Str} (h1 : n1 ≠ dotC) (h2 : n2 ≠ dotC)
    (hys : dotC ∉ ys) (m d : Nat) :
    dotC ∉ (n1 :: n2 :: (ys ++ yearU :: (natDigits m ++ monthU :: (natDigits d ++ [dayU])))) := by
  intro hc
  rcases List.mem_cons.mp hc with h | hc
  · exact h1 h.symm
  rcases List.mem_cons.mp hc with h | hc
  · exact h2 h.symm
  rcases mem_narrativeTail hc with h | h | h | h | h | h
  · exact hys h
  · exact absurd h (by decide)
  · exact natDigits_not_dot h
  · exact absurd h (by decide)
  · exact natDigits_not_dot h
  · exact absurd h (by decide)

lemma find_type_narrative {n1 n2 : Nat} {ys : Str}
    (h1hw : hwChar n1 = n1) (h2hw : hwChar n2 = n2)
    (h1dot : n1 ≠ dotC) (h2dot : n2 ≠ dotC)
    (hpair : gengoNamePairs.contains (n1, n2) = true)
    (hys : ∀ c ∈ ys, 48 ≤ c ∧ c ≤ 57) (hne : ys ≠ []) {m d : Nat}
    (hm : 1 ≤ m) (hd : 1 ≤ d) :
    find_type
        (n1 :: n2 :: (ys ++ yearU :: (natDigits m ++ monthU :: (natDigits d ++ [dayU]))))
      = Outcome.ok (some DateType.SeparatedWithKanji) := by
  have hfix := narrative_hw_fix h1hw h2hw (fun c hc => digit_hw_fix (hys c hc)) m d
  have hnd : dotC ∉ ys := fun h => digit_not_dot (hys _ h) rfl
  have hnodot := narrative_no_dot h1dot h2dot hnd m d
  have hsplit := splitOn_no_sep hnodot
  have hmatch := matchNarrative_encode hpair
    (fun c hc => isNd_of_ascii (hys c hc)) hne hm hd
  rw [find_type_eval, hfix, hsplit]
  simp [List.headI, hmatch]

/-! ### Field extraction on encoded inputs -/

lemma filter_ne_dayU_digits {l : Str} (hl : ∀ c ∈ l, 48 ≤ c ∧ c ≤ 57) :
    l.filter (fun c => c != dayU) = l := by
  apply List.filter_eq_self.mpr
  intro c hc
  have hne : c ≠ dayU := digit_not_dayU (hl c hc)
  simp [hne]

lemma map_dot_digits {l : Str} (hl : ∀ c ∈ l, 48 ≤ c ∧ c ≤ 57) :
    l.map (fun c => if isAsciiDigit c then c else dotC) = l := by
  conv_rhs => rw [← List.map_id l]
  refine List.map_congr_left (fun c hc => ?_)
  have : isAsciiDigit c = true := decide_eq_true (hl c hc)
  simp [this]

lemma extractSegs_narrative (n1 n2 : Nat) {ys : Str}
    (hys : ∀ c ∈ ys, 48 ≤ c ∧ c ≤ 57) (m d : Nat) :
    extractSegs
        (n1 :: n2 :: (ys ++ yearU :: (natDigits m ++ monthU :: (natDigits d ++ [dayU]))))
        DateType.SeparatedWithKanji
      = [ys, natDigits m, natDigits d] := by
  have hnd : dotC ∉ ys := fun h => digit_not_dot (hys _ h) rfl
  show splitOn dotC
      (((ys ++ yearU :: (natDigits m ++ monthU :: (natDigits d ++ [dayU]))).filter
          (fun c => c != dayU)).map
        (fun c => if isAsciiDigit c then c else dotC)) = [ys, natDigits m, natDigits d]
  have hfil : (ys ++ yearU :: (natDigits m ++ monthU :: (natDigits d ++ [dayU]))).filter
      (fun c => c != dayU) = ys ++ yearU :: (natDigits m ++ monthU :: natDigits d) := by
    rw [List.filter_append, filter_ne_dayU_digits hys]
    rw [List.filter_cons_of_pos (by decide)]
    rw [List.filter_append, filter_ne_dayU_digits (fun c hc => natDigits_digits hc)]
    rw [List.filter_cons_of_pos (by decide)]
    rw [List.filter_append, filter_ne_dayU_digits (fun c hc => natDigits_digits hc)]
    rw [List.filter_cons_of_neg (by decide), List.filter_nil, List.append_nil]
  have hmap : (ys ++ yearU :: (natDigits m ++ monthU :: natDigits d)).map
      (fun c => if isAsciiDigit c then c else dotC)
      = ys ++ dotC :: (natDigits m ++ dotC :: natDigits d) := by
    rw [List.map_append, map_dot_digits hys, List.map_cons]
    rw [List.map_append, map_dot_digits (fun c hc => natDigits_digits hc), List.map_cons]
    rw [map_dot_digits (fun c hc => natDigits_digits hc)]
    norm_num
    exact ⟨by decide, by decide⟩
  rw [hfil, hmap]
  exact splitOn_three hnd natDigits_not_dot natDigits_not_dot

lemma extractSegs_basic {ys : Str} (hys : dotC ∉ ys) (m d : Nat) :
    extractSegs (dottedStr ys m d) DateType.JisX0301Basic
      = [ys, natDigits m, natDigits d] := by
  show splitOn dotC (dottedStr ys m d) = [ys, natDigits m, natDigits d]
  exact splitOn_dottedStr hys m d

lemma extractSegs_ext (μ : Nat) {ys : Str} (hys : dotC ∉ ys) (m d : Nat) :
    extractSegs (μ :: dottedStr ys m d) DateType.JisX0301Extended
      = [ys, natDigits m, natDigits d] := by
  show splitOn dotC ((μ :: dottedStr ys m d).drop 1) = [ys, natDigits m, natDigits d]
  rw [List.drop_succ_cons, List.drop_zero]
  exact splitOn_dottedStr hys m d

lemma extractSegs_kanji (μ : Nat) {ys : Str} (hys : dotC ∉ ys) (m d : Nat) :
    extractSegs (μ :: dottedStr ys m d) DateType.JisX0301ExtendedWithKanji
      = [ys, natDigits m, natDigits d] := by
  show splitOn dotC ((μ :: dottedStr ys m d).drop 1) = [ys, natDigits m, natDigits d]
  rw [List.drop_succ_cons, List.drop_zero]
  exact splitOn_dottedStr hys m d

/-! ### Properties of the era constants -/

lemma markerOf_props (g : Gengo) :
    hwChar (markerOf g) = markerOf g ∧ markerOf g ≠ dotC ∧ markerOf g ≠ ganC ∧
      isNdDigit (markerOf g) = false ∧ markerChars.contains (markerOf g) = true ∧
      gengoOfChar (markerOf g) = g := by
  cases g <;> exact ⟨by decide, by decide, by decide, by decide, by decide, by decide⟩

lemma kanjiOf_props (g : Gengo) :
    hwChar (kanjiOf g) = kanjiOf g ∧ kanjiOf g ≠ dotC ∧ kanjiOf g ≠ ganC ∧
      isNdDigit (kanjiOf g) = false ∧ markerChars.contains (kanjiOf g) = false ∧
      kanjiChars.contains (kanjiOf g) = true ∧ gengoOfChar (kanjiOf g) = g := by
  cases g <;>
    exact ⟨by decide, by decide, by decide, by decide, by decide, by decide, by decide⟩

lemma namePairOf_props (g : Gengo) :
    hwChar (namePairOf g).1 = (namePairOf g).1 ∧
      hwChar (namePairOf g).2 = (namePairOf g).2 ∧
      (namePairOf g).1 ≠ dotC ∧ (namePairOf g).2 ≠ dotC ∧
      (namePairOf g).1 ≠ ganC ∧ (namePairOf g).2 ≠ ganC ∧
      gengoNamePairs.contains ((namePairOf g).1, (namePairOf g).2) = true ∧
      gengoOfChar (namePairOf g).1 = g := by
  cases g <;>
    exact ⟨by decide, by decide, by decide, by decide, by decide, by decide, by decide,
      by decide⟩

lemma narrativeTail_no_gan {ys : Str} (hys : ganC ∉ ys) (m d : Nat) :
    ganC ∉ ys ++ yearU :: (natDigits m ++ monthU :: (natDigits d ++ [dayU])) := by
  intro hc
  rcases mem_narrativeTail hc with h | h | h | h | h | h
  · exact hys h
  · exact absurd h (by decide)
  · exact natDigits_not_gan h
  · exact absurd h (by decide)
  · exact natDigits_not_gan h
  · exact absurd h (by decide)

/-! ### Claim C1 -/

/-- C1: for every era `g` with start years 1868/1912/1926/1989/2019 and every
era-relative year `1 ≤ y ≤ 60`, month `1 ≤ m ≤ 12`, day `1 ≤ d ≤ 28`,
converting any of the four accepted notations that can encode `(g, y, m, d)`
(the markerless numeric-dotted notation encodes only the default era Reiwa)
yields the calendar date `year = y + first_year g - 1`, `month = m`,
`day = d`, i.e. year 1 of an era maps exactly to the era's start year. -/
theorem convert_roundtrip_all_notations (g : Gengo) (k : DateType) (y m d : Nat)
    (hy1 : 1 ≤ y) (hy2 : y ≤ 60) (hm1 : 1 ≤ m) (hm2 : m ≤ 12)
    (hd1 : 1 ≤ d) (hd2 : d ≤ 28)
    (hk : k = DateType.JisX0301Basic → g = Gengo.Reiwa) :
    convert (encodeYMD g k y m d) =
      CResult.ok ⟨(y : Int) + Gengo.first_year g - 1, m, d⟩ := by
  have hydig : ∀ c ∈ natDigits y, 48 ≤ c ∧ c ≤ 57 := fun c hc => natDigits_digits hc
  have hyne : natDigits y ≠ [] := natDigits_ne_nil hy1
  have hynd : dotC ∉ natDigits y := natDigits_not_dot
  obtain ⟨c0, cs0, hcons, hc01, hc02⟩ := natDigits_cons hy1
  cases k with
  | JisX0301Basic =>
    have hgR := hk rfl
    subst hgR
    have hpre : preNorm (encodeYMD Gengo.Reiwa DateType.JisX0301Basic y m d)
        = dottedStr (natDigits y) m d := by
      show preNorm (dottedStr (natDigits y) m d) = dottedStr (natDigits y) m d
      exact preNorm_fix
        (fun c hc => by
          rcases mem_dottedStr hc with h | h | h | h
          · exact digit_hw_fix (hydig _ h)
          · subst h; decide
          · exact digit_hw_fix (natDigits_digits h)
          · exact digit_hw_fix (natDigits_digits h))
        (dottedStr_no_gan natDigits_not_gan m d)
    have ht : dottedStr (natDigits y) m d
        = c0 :: (cs0 ++ dotC :: (natDigits m ++ dotC :: natDigits d)) := by
      unfold dottedStr
      rw [hcons]
      rfl
    have hg : gengo_resolve (dottedStr (natDigits y) m d) = some Gengo.Reiwa := by
      rw [ht, gengo_resolve_cons, digit_hw_fix ⟨hc01, hc02⟩,
        gengoOfChar_digit ⟨hc01, hc02⟩]
    have hft := find_type_dotted_digit hydig hyne m d
    have hsegs := extractSegs_basic hynd m d
    unfold convert
    rw [hpre]
    exact convertAfterNorm_eval _ _ _ y m d hy1 hy2 hm1 hm2 hd1 hd2 hft hsegs hg
  | JisX0301Extended =>
    obtain ⟨hμhw, hμdot, hμgan, hμdig, hμmark, hμgengo⟩ := markerOf_props g
    have hpre : preNorm (encodeYMD g DateType.JisX0301Extended y m d)
        = markerOf g :: dottedStr (natDigits y) m d := by
      show preNorm (markerOf g :: dottedStr (natDigits y) m d) = _
      apply preNorm_fix
      · intro c hc
        rcases List.mem_cons.mp hc with h | h
        · subst h; exact hμhw
        · rcases mem_dottedStr h with h | h | h | h
          · exact digit_hw_fix (hydig _ h)
          · subst h; decide
          · exact digit_hw_fix (natDigits_digits h)
          · exact digit_hw_fix (natDigits_digits h)
      · intro hc
        rcases List.mem_cons.mp hc with h | h
        · exact hμgan h.symm
        · exact dottedStr_no_gan natDigits_not_gan m d h
    have hft0 := find_type_marked hμhw hμdot hμdig hydig m d
    rw [if_pos hμmark] at hft0
    have hg : gengo_resolve (markerOf g :: dottedStr (natDigits y) m d) = some g := by
      rw [gengo_resolve_cons, hμhw, hμgengo]
    have hsegs := extractSegs_ext (markerOf g) hynd m d
    unfold convert
    rw [hpre]
    exact convertAfterNorm_eval _ _ _ y m d hy1 hy2 hm1 hm2 hd1 hd2 hft0 hsegs hg
  | JisX0301ExtendedWithKanji =>
    obtain ⟨hμhw, hμdot, hμgan, hμdig, hμmark, hμkanji, hμgengo⟩ := kanjiOf_props g
    have hpre : preNorm (encodeYMD g DateType.JisX0301ExtendedWithKanji y m d)
        = kanjiOf g :: dottedStr (natDigits y) m d := by
      show preNorm (kanjiOf g :: dottedStr (natDigits y) m d) = _
      apply preNorm_fix
      · intro c hc
        rcases List.mem_cons.mp hc with h | h
        · subst h; exact hμhw
        · rcases mem_dottedStr h with h | h | h | h
          · exact digit_hw_fix (hydig _ h)
          · subst h; decide
          · exact digit_hw_fix (natDigits_digits h)
          · exact digit_hw_fix (natDigits_digits h)
      · intro hc
        rcases List.mem_cons.mp hc with h | h
        · exact hμgan h.symm
        · exact dottedStr_no_gan natDigits_not_gan m d h
    have hft0 := find_type_marked hμhw hμdot hμdig hydig m d
    have hmarkne : ¬ (markerChars.contains (kanjiOf g) = true) := by
      rw [hμmark]; simp
    rw [if_neg hmarkne, if_pos hμkanji] at hft0
    have hg : gengo_resolve (kanjiOf g :: dottedStr (natDigits y) m d) = some g := by
      rw [gengo_resolve_cons, hμhw, hμgengo]
    have hsegs := extractSegs_kanji (kanjiOf g) hynd m d
    unfold convert
    rw [hpre]
    exact convertAfterNorm_eval _ _ _ y m d hy1 hy2 hm1 hm2 hd1 hd2 hft0 hsegs hg
  | SeparatedWithKanji =>
    obtain ⟨h1hw, h2hw, h1dot, h2dot, h1gan, h2gan, hpair, hgengo⟩ := namePairOf_props g
    have hpre : preNorm (encodeYMD g DateType.SeparatedWithKanji y m d)
        = (namePairOf g).1 :: (namePairOf g).2 ::
            (natDigits y ++ yearU :: (natDigits m ++ monthU :: (natDigits d ++ [dayU]))) := by
      show preNorm ((namePairOf g).1 :: (namePairOf g).2 ::
        (natDigits y ++ yearU :: (natDigits m ++ monthU :: (natDigits d ++ [dayU])))) = _
      apply preNorm_fix
      · intro c hc
        rcases List.mem_cons.mp hc with h | hc
        · subst h; exact h1hw
        rcases List.mem_cons.mp hc with h | hc
        · subst h; exact h2hw
        rcases mem_narrativeTail hc with h | h | h | h | h | h
        · exact digit_hw_fix (hydig _ h)
        · subst h; decide
        · exact digit_hw_fix (natDigits_digits h)
        · subst h; decide
        · exact digit_hw_fix (natDigits_digits h)
        · subst h; decide
      · intro hc
        rcases List.mem_cons.mp hc with h | hc
        · exact h1gan h.symm
        rcases List.mem_cons.mp hc with h | hc
        · exact h2gan h.symm
        exact narrativeTail_no_gan natDigits_not_gan m d hc
    have hft := find_type_narrative h1hw h2hw h1dot h2dot hpair hydig hyne hm1 hd1
    have hsegs := extractSegs_narrative (namePairOf g).1 (namePairOf g).2 hydig m d
    have hg : gengo_resolve ((namePairOf g).1 :: (namePairOf g).2 ::
        (natDigits y ++ yearU :: (natDigits m ++ monthU :: (natDigits d ++ [dayU]))))
        = some g := by
      rw [gengo_resolve_cons, h1hw, hgengo]
    unfold convert
    rw [hpre]
    exact convertAfterNorm_eval _ _ _ y m d hy1 hy2 hm1 hm2 hd1 hd2 hft hsegs hg

/-- Witness for C1 at `M45.2.3` (spec example: Meiji 45 = 1912). -/
theorem convert_roundtrip_all_notations_witness :
    convert (codes (r"M45.2.3")) = CResult.ok ⟨1912, 2, 3⟩ := by
  have h := convert_roundtrip_all_notations Gengo.Meiji DateType.JisX0301Extended
    45 2 3 (by decide) (by decide) (by decide) (by decide) (by decide) (by decide)
    (by decide)
  have henc : encodeYMD Gengo.Meiji DateType.JisX0301Extended 45 2 3
      = codes (r"M45.2.3") := by decide
  rw [henc] at h
  rw [h]
  decide

/-! ### Claim C2 -/

/-- C2 is refuted by the code: on the two-dot-segment input `a.b` the
`assert_eq!(elm.len(), 3)` of `find_type` (conv.rs:171) fails and terminates
the process, and on `R01.02.30` (February 30) the `unwrap` on
`with_ymd_and_hms` (conv.rs:326-328) panics; in neither case is an error
value returned to the caller. -/
theorem convert_panics_on_malformed :
    convert (codes (r"a.b")) = CResult.panic ∧
      convert (codes (r"R01.02.30")) = CResult.panic :=
  ⟨by decide, by decide⟩

/-! ### Claim C4 -/

/-- C4 is refuted by the code: `R1.a.3` is successfully classified as
`JisX0301Extended`, but the non-numeric month token `a` makes
`x.parse().unwrap()` (conv.rs:293) panic instead of returning a
`MalformedField` error to the caller. -/
theorem convert_panics_nonnumeric_field :
    convert (codes (r"R1.a.3")) = CResult.panic := by decide

/-! ### Claim C7 -/

/-- C7: width normalization is idempotent, and a string that is already
half-width (contains no character of the full-width block U+FF01..U+FF5E)
is left unchanged. -/
theorem to_half_width_idempotent :
    (∀ s : Str, to_half_width (to_half_width s) = to_half_width s) ∧
    (∀ s : Str, (∀ c ∈ s, ¬(0xFF01 ≤ c ∧ c ≤ 0xFF5E)) → to_half_width s = s) := by
  refine ⟨to_half_width_idem, fun s h => ?_⟩
  refine to_half_width_fix (fun c hc => ?_)
  unfold hwChar
  rw [if_neg (h c hc)]

/-- Witness for C7 at the already half-width string `R01.02.03`. -/
theorem to_half_width_idempotent_witness :
    to_half_width (codes (r"R01.02.03")) = codes (r"R01.02.03") :=
  to_half_width_idempotent.2 (codes (r"R01.02.03")) (by decide)

/-! ### Claim C10 -/

/-- C10: the replacement of the first-year token 元 by the digit 1
(conv.rs:255) is global over the whole input string — no occurrence of 元
survives preprocessing — so the token is also accepted in month and day
positions: `R元.元.元` converts to 2019-01-01. -/
theorem gan_replacement_global :
    (∀ s : Str, ganC ∉ replaceAll ganC oneC (to_half_width s)) ∧
      convert (codes (r"R元.元.元")) = CResult.ok ⟨2019, 1, 1⟩ :=
  ⟨fun _ => not_mem_replaceAll (by decide) _, by decide⟩

/-! ### Claim C6 -/

lemma map_natDigits_fix {f : Nat → Nat} (hf : ∀ c, 48 ≤ c → c ≤ 57 → f c = c)
    (n : Nat) : (natDigits n).map f = natDigits n := by
  conv_rhs => rw [← List.map_id (natDigits n)]
  refine List.map_congr_left (fun c hc => ?_)
  have h := natDigits_digits hc
  show f c = id c
  rw [hf c h.1 h.2]
  rfl

lemma encodeStrYMD_map (g : Gengo) (k : DateType) (ys : Str) (m d : Nat)
    (f : Nat → Nat)
    (hdig : ∀ c, 48 ≤ c → c ≤ 57 → f c = c)
    (hdot : f dotC = dotC) (hyu : f yearU = yearU) (hmu : f monthU = monthU)
    (hdu : f dayU = dayU)
    (hmk : f (markerOf g) = markerOf g) (hkj : f (kanjiOf g) = kanjiOf g)
    (hn1 : f (namePairOf g).1 = (namePairOf g).1)
    (hn2 : f (namePairOf g).2 = (namePairOf g).2) :
    (encodeStrYMD g k ys m d).map f = encodeStrYMD g k (ys.map f) m d := by
  cases k <;>
    simp only [encodeStrYMD, dottedStr, List.map_append, List.map_cons, List.map_nil,
      map_natDigits_fix hdig, hdot, hyu, hmu, hdu, hmk, hkj, hn1, hn2]

lemma preNorm_encodeStr (g : Gengo) (k : DateType) (ys : Str) (m d : Nat) :
    preNorm (encodeStrYMD g k ys m d) = encodeStrYMD g k (preNorm ys) m d := by
  have hmkp := markerOf_props g
  have hkjp := kanjiOf_props g
  have hnpp := namePairOf_props g
  unfold preNorm replaceAll to_half_width
  rw [encodeStrYMD_map g k ys m d hwChar
      (fun c h1 h2 => digit_hw_fix ⟨h1, h2⟩) (by decide) (by decide) (by decide)
      (by decide) hmkp.1 hkjp.1 hnpp.1 hnpp.2.1]
  rw [encodeStrYMD_map g k (ys.map hwChar) m d (fun c => if c = ganC then oneC else c)
      (fun c h1 h2 => if_neg (digit_not_gan ⟨h1, h2⟩)) (by decide) (by decide)
      (by decide) (by decide) (if_neg hmkp.2.2.1) (if_neg hkjp.2.2.1)
      (if_neg hnpp.2.2.2.2.1) (if_neg hnpp.2.2.2.2.2.1)]

/-- C6: for every era and every notation, the input encoding the year by the
first-year token 元 converts to the same result as the input encoding it by
the numeral 1, and in particular `明治元年2月3日` and `明治1年2月3日` both
yield 1868-02-03. -/
theorem first_year_token_equiv :
    (∀ (g : Gengo) (k : DateType) (m d : Nat),
      convert (encodeGan g k m d) = convert (encodeYMD g k 1 m d)) ∧
    convert (codes (r"明治元年2月3日")) = CResult.ok ⟨1868, 2, 3⟩ ∧
    convert (codes (r"明治1年2月3日")) = CResult.ok ⟨1868, 2, 3⟩ := by
  refine ⟨fun g k m d => ?_, by decide, by decide⟩
  have h1 : preNorm (encodeGan g k m d) = encodeStrYMD g k [oneC] m d := by
    show preNorm (encodeStrYMD g k [ganC] m d) = encodeStrYMD g k [oneC] m d
    rw [preNorm_encodeStr]
    congr 1
  have h2 : preNorm (encodeYMD g k 1 m d) = encodeStrYMD g k [oneC] m d := by
    show preNorm (encodeStrYMD g k (natDigits 1) m d) = encodeStrYMD g k [oneC] m d
    rw [preNorm_encodeStr]
    congr 1
  show convertAfterNorm (preNorm (encodeGan g k m d))
      = convertAfterNorm (preNorm (encodeYMD g k 1 m d))
  rw [h1, h2]

/-! ### Claim C9 -/

lemma convertAN_panic {t : Str} (h : find_type t = Outcome.panic) :
    convertAfterNorm t = CResult.panic := by
  unfold convertAfterNorm
  rw [h]

lemma convertAN_none {t : Str} (h : find_type t = Outcome.ok none) :
    convertAfterNorm t = CResult.unrecognized := by
  unfold convertAfterNorm
  rw [h]

lemma convertAN_ne_err (t : Str) : convertAfterNorm t ≠ CResult.err := by
  cases hft : find_type t with
  | err => exact absurd hft (find_type_ne_err t)
  | panic => rw [convertAN_panic hft]; simp
  | ok dtOpt =>
    cases dtOpt with
    | none => rw [convertAN_none hft]; simp
    | some dt =>
      rw [convertAfterNorm_ok_some t dt hft]
      cases hseg : (extractSegs t dt).mapM parseU32 with
      | none => simp
      | some l =>
        match l with
        | [] => simp
        | [a] => simp
        | [a, b] => simp
        | [a, b, c] =>
          cases hg : gengo_resolve t with
          | none => simp
          | some g =>
            show ¬ (if dateValid (wrapI32 (wrapI32 (i32ofU32 a + Gengo.first_year g) - 1)) b c
                then CResult.ok
                  ⟨wrapI32 (wrapI32 (i32ofU32 a + Gengo.first_year g) - 1), b, c⟩
                else CResult.panic) = CResult.err
            split <;> simp
        | a :: b :: c :: e :: rest => simp

lemma convertAN_ne_unrecognized_of_some {t : Str} {dt : DateType}
    (hft : find_type t = Outcome.ok (some dt)) :
    convertAfterNorm t ≠ CResult.unrecognized := by
  rw [convertAfterNorm_ok_some t dt hft]
  cases hseg : (extractSegs t dt).mapM parseU32 with
  | none => simp
  | some l =>
    match l with
    | [] => simp
    | [a] => simp
    | [a, b] => simp
    | [a, b, c] =>
      cases hg : gengo_resolve t with
      | none => exact absurd hg (gengo_resolve_ne_none t)
      | some g =>
        show ¬ (if dateValid (wrapI32 (wrapI32 (i32ofU32 a + Gengo.first_year g) - 1)) b c
            then CResult.ok
              ⟨wrapI32 (wrapI32 (i32ofU32 a + Gengo.first_year g) - 1), b, c⟩
            else CResult.panic) = CResult.unrecognized
        split <;> simp
    | a :: b :: c :: e :: rest => simp

/-- C9: the `Err(regex::Error)` variant in the return types of `find_type`
and `convert` is unreachable — every terminating run returns the `Ok`
variant, because the four regular-expression patterns are fixed valid
constants compiled identically on every call. -/
theorem regex_error_unreachable (s : Str) :
    find_type s ≠ Outcome.err ∧ convert s ≠ CResult.err :=
  ⟨find_type_ne_err s, convertAN_ne_err (preNorm s)⟩

/-! ### Claim C3 -/

/-- C3 counterexample: on `bogus` the code does not return an
`UnrecognizedFormat` error — the single-segment narrative assertion of
`find_type` (conv.rs:167) fails and the process panics.  And the claim's
"exactly when" with an ASCII digit class is also false: the leading
Arabic-Indic digit ٣ (U+0663) of `٣.2.3` is no ASCII digit, marker, or
Kanji era-initial, yet the Unicode-aware regex `^\d` classifies the input
as `JisX0301Basic` and `convert` panics at `parse().unwrap()` instead of
returning the unrecognized outcome. -/
theorem convert_bogus_panics :
    convert (codes (r"bogus")) = CResult.panic ∧
    find_type (preNorm (codes (r"٣.2.3"))) =
      Outcome.ok (some DateType.JisX0301Basic) ∧
    convert (codes (r"٣.2.3")) = CResult.panic :=
  ⟨by decide, by decide, by decide⟩

/-- C3 (amended): `convert` yields the explicit unrecognized outcome
(`Ok(None)`) exactly when the preprocessed input has three dot-segments whose
leading character is neither a Unicode decimal digit (the regex class `\d`,
category Nd — wider than ASCII, e.g. it contains ٣ U+0663), nor a marker in
`{M,T,S,H,R}`, nor a Kanji era-initial; a segment count other than 1 or 3, or
a single-segment input that does not match the narrative pattern, instead
aborts with an assertion panic rather than returning an error. -/
theorem classification_failure_modes (s : Str) :
    (convert s = CResult.unrecognized ↔
      ((splitOn dotC (preNorm s)).length = 3 ∧
        beginsWith isNdDigit (splitOn dotC (preNorm s)).headI = false ∧
        beginsWith (fun c => markerChars.contains c)
          (splitOn dotC (preNorm s)).headI = false ∧
        beginsWith (fun c => kanjiChars.contains c)
          (splitOn dotC (preNorm s)).headI = false)) ∧
    ((splitOn dotC (preNorm s)).length ≠ 1 → (splitOn dotC (preNorm s)).length ≠ 3 →
      convert s = CResult.panic) ∧
    ((splitOn dotC (preNorm s)).length = 1 →
      matchNarrative (splitOn dotC (preNorm s)).headI = false →
      convert s = CResult.panic) := by
  have hft := find_type_eval (preNorm s)
  rw [to_half_width_preNorm] at hft
  by_cases h1 : (splitOn dotC (preNorm s)).length = 1
  · rw [if_pos h1] at hft
    by_cases hn : matchNarrative (splitOn dotC (preNorm s)).headI = true
    · rw [if_pos hn] at hft
      refine ⟨⟨?_, ?_⟩, fun hne1 _ => absurd h1 hne1,
        fun _ hnf => absurd hn (by simp [hnf])⟩
      · intro hc
        exact absurd hc (convertAN_ne_unrecognized_of_some hft)
      · rintro ⟨h3, -⟩
        omega
    · rw [if_neg hn] at hft
      have hpanic : convert s = CResult.panic := convertAN_panic hft
      refine ⟨⟨?_, ?_⟩, fun hne1 _ => absurd h1 hne1, fun _ _ => hpanic⟩
      · intro hc
        rw [hpanic] at hc
        exact absurd hc (by simp)
      · rintro ⟨h3, -⟩
        omega
  · rw [if_neg h1] at hft
    by_cases h3 : (splitOn dotC (preNorm s)).length = 3
    · rw [if_pos h3] at hft
      refine ⟨?_, fun _ hne3 => absurd h3 hne3, fun he1 _ => absurd he1 h1⟩
      by_cases hd : beginsWith isNdDigit (splitOn dotC (preNorm s)).headI = true
      · rw [if_pos hd] at hft
        refine ⟨fun hc => absurd hc (convertAN_ne_unrecognized_of_some hft), ?_⟩
        rintro ⟨-, hdf, -, -⟩
        rw [hd] at hdf
        exact absurd hdf (by simp)
      · rw [if_neg hd] at hft
        by_cases hm : beginsWith (fun c => markerChars.contains c)
            (splitOn dotC (preNorm s)).headI = true
        · rw [if_pos hm] at hft
          refine ⟨fun hc => absurd hc (convertAN_ne_unrecognized_of_some hft), ?_⟩
          rintro ⟨-, -, hmf, -⟩
          rw [hm] at hmf
          exact absurd hmf (by simp)
        · rw [if_neg hm] at hft
          by_cases hk : beginsWith (fun c => kanjiChars.contains c)
              (splitOn dotC (preNorm s)).headI = true
          · rw [if_pos hk] at hft
            refine ⟨fun hc => absurd hc (convertAN_ne_unrecognized_of_some hft), ?_⟩
            rintro ⟨-, -, -, hkf⟩
            rw [hk] at hkf
            exact absurd hkf (by simp)
          · rw [if_neg hk] at hft
            have hu : convert s = CResult.unrecognized := convertAN_none hft
            exact ⟨fun _ => ⟨h3, Bool.eq_false_iff.mpr hd, Bool.eq_false_iff.mpr hm,
              Bool.eq_false_iff.mpr hk⟩, fun _ => hu⟩
    · rw [if_neg h3] at hft
      have hpanic : convert s = CResult.panic := convertAN_panic hft
      refine ⟨⟨?_, ?_⟩, fun _ _ => hpanic, fun he1 _ => absurd he1 h1⟩
      · intro hc
        rw [hpanic] at hc
        exact absurd hc (by simp)
      · rintro ⟨he3, -⟩
        exact absurd he3 h3

/-- Witness for C3 (amended) at the two-segment input `ab.cd`, which the code
answers with an assertion panic. -/
theorem classification_failure_modes_witness :
    convert (codes (r"ab.cd")) = CResult.panic :=
  (classification_failure_modes (codes (r"ab.cd"))).2.1 (by decide) (by decide)

/-! ### Claim C5 -/

lemma gengoOfChar_of_not_mem {x : Nat}
    (hx : x ∉ ([Char.toNat 'M', Char.toNat '明', Char.toNat 'T', Char.toNat '大',
      Char.toNat 'S', Char.toNat '昭', Char.toNat 'H', Char.toNat '平'] : List Nat)) :
    gengoOfChar x = Gengo.Reiwa := by
  have h77 : ([Char.toNat 'M', Char.toNat '明', Char.toNat 'T', Char.toNat '大',
      Char.toNat 'S', Char.toNat '昭', Char.toNat 'H', Char.toNat '平'] : List Nat)
      = [77, 26126, 84, 22823, 83, 26157, 72, 24179] := by decide
  rw [h77] at hx
  simp only [List.mem_cons, List.not_mem_nil, not_or, or_false] at hx
  obtain ⟨h1, h2, h3, h4, h5, h6, h7, h8⟩ := hx
  simp [gengoOfChar, h1, h2, h3, h4, h5, h6, h7, h8]

lemma gengoOfChar_nd {c : Nat} (hd : isNdDigit c = true) :
    gengoOfChar c = Gengo.Reiwa := by
  apply gengoOfChar_of_not_mem
  intro hmem
  have h77 : ([Char.toNat 'M', Char.toNat '明', Char.toNat 'T', Char.toNat '大',
      Char.toNat 'S', Char.toNat '昭', Char.toNat 'H', Char.toNat '平'] : List Nat)
      = [77, 26126, 84, 22823, 83, 26157, 72, 24179] := by decide
  rw [h77] at hmem
  simp at hmem
  rcases hmem with h | h | h | h | h | h | h | h <;> subst h <;>
    exact absurd hd (by decide)

lemma find_type_basic_inv {t : Str} (hhw : to_half_width t = t)
    (h : find_type t = Outcome.ok (some DateType.JisX0301Basic)) :
    (splitOn dotC t).length = 3 ∧
      beginsWith isNdDigit (splitOn dotC t).headI = true := by
  rw [find_type_eval, hhw] at h
  by_cases h1 : (splitOn dotC t).length = 1
  · rw [if_pos h1] at h
    split_ifs at h
    all_goals simp_all
  · rw [if_neg h1] at h
    by_cases h3 : (splitOn dotC t).length = 3
    · rw [if_pos h3] at h
      refine ⟨h3, ?_⟩
      by_cases hd : beginsWith isNdDigit (splitOn dotC t).headI = true
      · exact hd
      · exfalso
        rw [if_neg hd] at h
        split_ifs at h
        all_goals simp_all
    · rw [if_neg h3] at h
      exact absurd h (by simp)

/-- C5: era resolution is total and never fails: a first character `M`/明
resolves to Meiji, `T`/大 to Taisho, `S`/昭 to Showa, `H`/平 to Heisei, and
any other first character resolves to Reiwa; consequently a numeric-dotted
input with no marker converts to the same date as the same input with an
explicit Reiwa marker `R` prepended. -/
theorem gengo_resolve_total_default :
    (∀ s : Str, gengo_resolve s ≠ none) ∧
    (∀ s : Str, gengo_resolve (Char.toNat 'M' :: s) = some Gengo.Meiji) ∧
    (∀ s : Str, gengo_resolve (Char.toNat '明' :: s) = some Gengo.Meiji) ∧
    (∀ s : Str, gengo_resolve (Char.toNat 'T' :: s) = some Gengo.Taisho) ∧
    (∀ s : Str, gengo_resolve (Char.toNat '大' :: s) = some Gengo.Taisho) ∧
    (∀ s : Str, gengo_resolve (Char.toNat 'S' :: s) = some Gengo.Showa) ∧
    (∀ s : Str, gengo_resolve (Char.toNat '昭' :: s) = some Gengo.Showa) ∧
    (∀ s : Str, gengo_resolve (Char.toNat 'H' :: s) = some Gengo.Heisei) ∧
    (∀ s : Str, gengo_resolve (Char.toNat '平' :: s) = some Gengo.Heisei) ∧
    (∀ (c : Nat) (s : Str),
      hwChar c ∉ ([Char.toNat 'M', Char.toNat '明', Char.toNat 'T', Char.toNat '大',
        Char.toNat 'S', Char.toNat '昭', Char.toNat 'H', Char.toNat '平'] : List Nat) →
      gengo_resolve (c :: s) = some Gengo.Reiwa) ∧
    (∀ s : Str,
      find_type (preNorm s) = Outcome.ok (some DateType.JisX0301Basic) →
      convert s = convert (Char.toNat 'R' :: s)) := by
  refine ⟨gengo_resolve_ne_none,
    fun s => by rw [gengo_resolve_cons]; decide,
    fun s => by rw [gengo_resolve_cons]; decide,
    fun s => by rw [gengo_resolve_cons]; decide,
    fun s => by rw [gengo_resolve_cons]; decide,
    fun s => by rw [gengo_resolve_cons]; decide,
    fun s => by rw [gengo_resolve_cons]; decide,
    fun s => by rw [gengo_resolve_cons]; decide,
    fun s => by rw [gengo_resolve_cons]; decide,
    fun c s hc => by rw [gengo_resolve_cons, gengoOfChar_of_not_mem hc],
    fun s hft => ?_⟩
  have hhw := to_half_width_preNorm s
  obtain ⟨hlen, hdig⟩ := find_type_basic_inv hhw hft
  obtain ⟨e0, e1, e2, helm⟩ : ∃ a b c, splitOn dotC (preNorm s) = [a, b, c] := by
    match hx : splitOn dotC (preNorm s) with
    | [a, b, c] => exact ⟨a, b, c, rfl⟩
    | [] => rw [hx] at hlen; simp at hlen
    | [a] => rw [hx] at hlen; simp at hlen
    | [a, b] => rw [hx] at hlen; simp at hlen
    | a :: b :: c :: e :: r => rw [hx] at hlen; simp at hlen
  rw [helm] at hdig
  obtain ⟨c0, e0r, he0, hc0⟩ : ∃ c0 r, e0 = c0 :: r ∧ isNdDigit c0 = true := by
    match hx : e0, hdig with
    | [], hdig =>
      exact absurd hdig (by simp [List.headI, beginsWith])
    | c :: r, hdig =>
      exact ⟨c, r, rfl, hdig⟩
  have ht : preNorm s = e0 ++ dotC :: (e1 ++ dotC :: e2) := by
    have hj := joinSep_splitOn dotC (preNorm s)
    rw [helm] at hj
    exact hj.symm
  have hpreR : preNorm (Char.toNat 'R' :: s) = Char.toNat 'R' :: preNorm s := by
    unfold preNorm to_half_width replaceAll
    rw [List.map_cons, List.map_cons]
    rw [show hwChar (Char.toNat 'R') = Char.toNat 'R' from by decide]
    rw [show (if Char.toNat 'R' = ganC then oneC else Char.toNat 'R') = Char.toNat 'R'
      from by decide]
  have hsplitR : splitOn dotC (preNorm (Char.toNat 'R' :: s)) =
      (Char.toNat 'R' :: e0) :: [e1, e2] := by
    rw [hpreR, splitOn_cons' helm, if_neg (by decide)]
  have hftR : find_type (preNorm (Char.toNat 'R' :: s)) =
      Outcome.ok (some DateType.JisX0301Extended) := by
    have hndR : beginsWith isNdDigit
        (((Char.toNat 'R' :: e0) :: [e1, e2]).headI) = false := by
      show isNdDigit (Char.toNat 'R') = false
      decide
    have hmkR : beginsWith (fun c => markerChars.contains c)
        (((Char.toNat 'R' :: e0) :: [e1, e2]).headI) = true := by
      show markerChars.contains (Char.toNat 'R') = true
      decide
    rw [find_type_eval, to_half_width_preNorm, hsplitR]
    rw [if_neg (by simp), if_pos (by simp)]
    rw [if_neg (Bool.eq_false_iff.mp hndR), if_pos hmkR]
  have hcons : preNorm s = c0 :: (e0r ++ dotC :: (e1 ++ dotC :: e2)) := by
    rw [ht, he0]
    rfl
  have hfix0 : hwChar c0 = c0 :=
    mem_preNorm_fix (by rw [hcons]; exact List.mem_cons_self _ _)
  have hgt : gengo_resolve (preNorm s) = some Gengo.Reiwa := by
    rw [hcons, gengo_resolve_cons, hfix0, gengoOfChar_nd hc0]
  have hgR : gengo_resolve (preNorm (Char.toNat 'R' :: s)) = some Gengo.Reiwa := by
    rw [hpreR, gengo_resolve_cons]
    rw [show hwChar (Char.toNat 'R') = Char.toNat 'R' from by decide]
    rw [show gengoOfChar (Char.toNat 'R') = Gengo.Reiwa from by decide]
  have hsegL : extractSegs (preNorm s) DateType.JisX0301Basic = [e0, e1, e2] := helm
  have hsegR : extractSegs (preNorm (Char.toNat 'R' :: s))
      DateType.JisX0301Extended = [e0, e1, e2] := by
    show splitOn dotC ((preNorm (Char.toNat 'R' :: s)).drop 1) = [e0, e1, e2]
    rw [hpreR, List.drop_succ_cons, List.drop_zero]
    exact helm
  show convertAfterNorm (preNorm s) = convertAfterNorm (preNorm (Char.toNat 'R' :: s))
  rw [convertAfterNorm_ok_some _ _ hft, convertAfterNorm_ok_some _ _ hftR,
    hsegL, hsegR, hgt, hgR]

/-- Witness for C5: an unknown leading character resolves to Reiwa, and the
markerless `1.2.3` converts like `R1.2.3`. -/
theorem gengo_resolve_total_default_witness :
    gengo_resolve (Char.toNat 'x' :: codes (r"yz")) = some Gengo.Reiwa ∧
    convert (codes (r"1.2.3")) = convert (Char.toNat 'R' :: codes (r"1.2.3")) :=
  ⟨gengo_resolve_total_default.2.2.2.2.2.2.2.2.2.1 (Char.toNat 'x') (codes (r"yz"))
      (by decide),
    gengo_resolve_total_default.2.2.2.2.2.2.2.2.2.2 (codes (r"1.2.3")) (by decide)⟩

/-! ### Claim C8 -/

lemma beginsWith_both {p q : Nat → Bool} {l : Str}
    (hp : beginsWith p l = true) (hq : beginsWith q l = true) :
    ∃ c, p c = true ∧ q c = true := by
  match l, hp, hq with
  | [], hp, _ => exact absurd hp (by simp [beginsWith])
  | c :: _, hp, hq => exact ⟨c, hp, hq⟩

lemma nd_marker_disjoint {c : Nat} (hd : isNdDigit c = true)
    (hm : markerChars.contains c = true) : False := by
  have h1 := contains_true_iff.mp hm
  have e1 : markerChars = [77, 84, 83, 72, 82] := by decide
  rw [e1] at h1
  simp at h1
  rcases h1 with h | h | h | h | h <;> subst h <;> exact absurd hd (by decide)

lemma nd_kanji_disjoint {c : Nat} (hd : isNdDigit c = true)
    (hk : kanjiChars.contains c = true) : False := by
  have h1 := contains_true_iff.mp hk
  have e1 : kanjiChars = [26126, 22823, 26157, 24179, 20196] := by decide
  rw [e1] at h1
  simp at h1
  rcases h1 with h | h | h | h | h <;> subst h <;> exact absurd hd (by decide)

lemma marker_kanji_disjoint {c : Nat} (hm : markerChars.contains c = true)
    (hk : kanjiChars.contains c = true) : False := by
  have h1 := contains_true_iff.mp hm
  have h2 := contains_true_iff.mp hk
  have e1 : markerChars = [77, 84, 83, 72, 82] := by decide
  have e2 : kanjiChars = [26126, 22823, 26157, 24179, 20196] := by decide
  rw [e1] at h1
  rw [e2] at h2
  simp at h1 h2
  omega

lemma matchesKind_exclusive (s : Str) (k1 k2 : DateType)
    (h1 : matchesKind s k1 = true) (h2 : matchesKind s k2 = true) : k1 = k2 := by
  cases k1 <;> cases k2 <;> try rfl
  all_goals exfalso
  all_goals simp only [matchesKind, Bool.and_eq_true, decide_eq_true_eq] at h1 h2
  all_goals obtain ⟨hl1, hb1⟩ := h1
  all_goals obtain ⟨hl2, hb2⟩ := h2
  all_goals try omega
  all_goals obtain ⟨c, hc1, hc2⟩ := beginsWith_both hb1 hb2
  all_goals first
    | exact nd_marker_disjoint hc1 hc2
    | exact nd_marker_disjoint hc2 hc1
    | exact nd_kanji_disjoint hc1 hc2
    | exact nd_kanji_disjoint hc2 hc1
    | exact marker_kanji_disjoint hc1 hc2
    | exact marker_kanji_disjoint hc2 hc1

lemma find_type_matchesKind (s : Str) (k : DateType) :
    find_type s = Outcome.ok (some k) ↔ matchesKind (to_half_width s) k = true := by
  rw [find_type_eval]
  by_cases h1 : (splitOn dotC (to_half_width s)).length = 1
  · rw [if_pos h1]
    by_cases hn : matchNarrative (splitOn dotC (to_half_width s)).headI = true
    · rw [if_pos hn]
      cases k <;> simp only [matchesKind, Bool.and_eq_true, decide_eq_true_eq]
      · exact iff_of_false (by simp) (fun h => absurd h.1 (by omega))
      · exact iff_of_false (by simp) (fun h => absurd h.1 (by omega))
      · exact iff_of_false (by simp) (fun h => absurd h.1 (by omega))
      · exact iff_of_true trivial ⟨h1, hn⟩
    · rw [if_neg hn]
      cases k <;> simp only [matchesKind, Bool.and_eq_true, decide_eq_true_eq]
      · exact iff_of_false (by simp) (fun h => absurd h.1 (by omega))
      · exact iff_of_false (by simp) (fun h => absurd h.1 (by omega))
      · exact iff_of_false (by simp) (fun h => absurd h.1 (by omega))
      · exact iff_of_false (by simp) (fun h => hn h.2)
  · rw [if_neg h1]
    by_cases h3 : (splitOn dotC (to_half_width s)).length = 3
    · rw [if_pos h3]
      by_cases hd : beginsWith isNdDigit (splitOn dotC (to_half_width s)).headI = true
      · rw [if_pos hd]
        cases k <;> simp only [matchesKind, Bool.and_eq_true, decide_eq_true_eq]
        · exact iff_of_true trivial ⟨h3, hd⟩
        · refine iff_of_false (by simp) (fun h => ?_)
          obtain ⟨c, hc1, hc2⟩ := beginsWith_both hd h.2
          exact nd_marker_disjoint hc1 hc2
        · refine iff_of_false (by simp) (fun h => ?_)
          obtain ⟨c, hc1, hc2⟩ := beginsWith_both hd h.2
          exact nd_kanji_disjoint hc1 hc2
        · exact iff_of_false (by simp) (fun h => h1 h.1)
      · rw [if_neg hd]
        by_cases hm : beginsWith (fun c => markerChars.contains c)
            (splitOn dotC (to_half_width s)).headI = true
        · rw [if_pos hm]
          cases k <;> simp only [matchesKind, Bool.and_eq_true, decide_eq_true_eq]
          · exact iff_of_false (by simp) (fun h => hd h.2)
          · exact iff_of_true trivial ⟨h3, hm⟩
          · refine iff_of_false (by simp) (fun h => ?_)
            obtain ⟨c, hc1, hc2⟩ := beginsWith_both hm h.2
            exact marker_kanji_disjoint hc1 hc2
          · exact iff_of_false (by simp) (fun h => h1 h.1)
        · rw [if_neg hm]
          by_cases hk : beginsWith (fun c => kanjiChars.contains c)
              (splitOn dotC (to_half_width s)).headI = true
          · rw [if_pos hk]
            cases k <;> simp only [matchesKind, Bool.and_eq_true, decide_eq_true_eq]
            · exact iff_of_false (by simp) (fun h => hd h.2)
            · exact iff_of_false (by simp) (fun h => hm h.2)
            · exact iff_of_true trivial ⟨h3, hk⟩
            · exact iff_of_false (by simp) (fun h => h1 h.1)
          · rw [if_neg hk]
            cases k <;> simp only [matchesKind, Bool.and_eq_true, decide_eq_true_eq]
            · exact iff_of_false (by simp) (fun h => hd h.2)
            · exact iff_of_false (by simp) (fun h => hm h.2)
            · exact iff_of_false (by simp) (fun h => hk h.2)
            · exact iff_of_false (by simp) (fun h => h1 h.1)
    · rw [if_neg h3]
      cases k <;> simp only [matchesKind, Bool.and_eq_true, decide_eq_true_eq]
      · exact iff_of_false (by simp) (fun h => h3 h.1)
      · exact iff_of_false (by simp) (fun h => h3 h.1)
      · exact iff_of_false (by simp) (fun h => h3 h.1)
      · exact iff_of_false (by simp) (fun h => h1 h.1)

/-- C8: classification is exclusive and total over outcomes — the four shape
predicates are pairwise exclusive on every normalized input, and `find_type`
classifies an input as kind `k` exactly when the input matches the shape
predicate of `k` (with the explicit unrecognized outcome covering the rest). -/
theorem classification_exclusive_total :
    (∀ (s : Str) (k1 k2 : DateType),
      matchesKind s k1 = true → matchesKind s k2 = true → k1 = k2) ∧
    (∀ (s : Str) (k : DateType),
      find_type s = Outcome.ok (some k) ↔ matchesKind (to_half_width s) k = true) :=
  ⟨matchesKind_exclusive, find_type_matchesKind⟩

/-- Witness for C8 at `R9.9.9`, classified as the marker-dotted notation. -/
theorem classification_exclusive_total_witness :
    DateType.JisX0301Extended = DateType.JisX0301Extended ∧
    find_type (codes (r"R9.9.9")) = Outcome.ok (some DateType.JisX0301Extended) :=
  ⟨classification_exclusive_total.1 (codes (r"R9.9.9")) DateType.JisX0301Extended
      DateType.JisX0301Extended (by decide) (by decide),
    (classification_exclusive_total.2 (codes (r"R9.9.9"))
      DateType.JisX0301Extended).mpr (by decide)⟩

end Wareki
